import Mathlib

/-!
Verification of the reveal-preview document-structure resolution engine
(`revealSlideIndex`, `revealEditorLocation`, `slideLevelFromYaml`).

The engine scans a stream of markdown block tokens.  Each token optionally
carries a source map (we keep only the start row, which is the only part the
engine reads), and has one of four relevant types: a front-matter block
(whose raw text is handed to an external YAML decoder — modelled here by the
`ParseResult` that decoder produces), a horizontal rule, a heading-open token
(whose markup encodes the heading level, decoded by the external
`getHeaderLevel`; we carry the decoded level directly), or anything else.

JavaScript value semantics that matter are modelled explicitly:
`explicitSlideLevel || autoSlideLevel` and the lookup chain
`meta[k] || meta["format"]?.["revealjs"]?.[k] || null` use JS truthiness,
under which the number 0 is falsy (`jsOrElse`, `jsNumOr`), and
`Number.MAX_SAFE_INTEGER` is the concrete constant `2 ^ 53 - 1`.
-/

namespace QuartoReveal

/-- Innermost front-matter mapping `{"slide-level": ...}` under `revealjs`. -/
structure Revealjs where
  slideLevel : Option Int
deriving DecidableEq

/-- Front-matter mapping under the `format` key. -/
structure MetaFormat where
  revealjs : Option Revealjs
deriving DecidableEq

/-- Parsed front-matter mapping: the engine only reads the top-level
`slide-level` key and the nested `format.revealjs.slide-level` key. -/
structure FrontMeta where
  slideLevel : Option Int
  format : Option MetaFormat
deriving DecidableEq

/-- Outcome of `parseFrontMatterStr` on the front-matter raw text:
it can throw (caught by `slideLevelFromYaml`), return a falsy value,
or return a mapping. -/
inductive ParseResult where
  | failure
  | nullMeta
  | meta (m : FrontMeta)
deriving DecidableEq

/-- JS `a || b` on optional numbers: `0` (and an absent value) is falsy. -/
def jsNumOr (a : Option Int) (b : Option Int) : Option Int :=
  match a with
  | some v => if v = 0 then b else some v
  | none => b

/-- Optional chain `meta["format"]?.["revealjs"]?.["slide-level"]`:
missing intermediate keys yield `none` rather than an error. -/
def nestedSlideLevel (m : FrontMeta) : Option Int :=
  match m.format with
  | none => none
  | some f =>
    match f.revealjs with
    | none => none
    | some r => r.slideLevel

/-- Embedding of `slideLevelFromYaml`: parse the front-matter text (a throw
or a falsy parse yields `null`), then evaluate
`meta["slide-level"] || meta["format"]?.["revealjs"]?.["slide-level"] || null`. -/
def slideLevelFromYaml (str : ParseResult) : Option Int :=
  match str with
  | .failure => none
  | .nullMeta => none
  | .meta m => jsNumOr m.slideLevel (jsNumOr (nestedSlideLevel m) none)

/-- Relevant token types of the external markdown parser. -/
inductive TokenType where
  | front_matter (markup : ParseResult)
  | hr
  | heading_open (level : Nat)
  | other
deriving DecidableEq

/-- A block token: `map` is `some startRow` when the token is source-mapped
(`token.map[0]` in the source); unmapped tokens are skipped entirely. -/
structure Token where
  map : Option Nat
  ttype : TokenType
deriving DecidableEq

/-- The four `RevealEditorLocationItemType` string constants. -/
inductive ItemType where
  | title
  | heading
  | hr
  | cursor
deriving DecidableEq

/-- A `RevealEditorLocationItem`: type, heading level (0 for simple items),
and source row. -/
structure Item where
  ttype : ItemType
  level : Nat
  row : Nat
deriving DecidableEq

def titleItem (row : Nat) : Item := ⟨ItemType.title, 0, row⟩

def cursorItem (row : Nat) : Item := ⟨ItemType.cursor, 0, row⟩

def hrItem (row : Nat) : Item := ⟨ItemType.hr, 0, row⟩

def headingItem (row : Nat) (level : Nat) : Item := ⟨ItemType.heading, level, row⟩

/-- Result record of `revealEditorLocation`. -/
structure RevealEditorLocation where
  items : List Item
  slideLevel : Int
deriving DecidableEq

/-- `Number.MAX_SAFE_INTEGER`. -/
def maxSafeInteger : Nat := 2 ^ 53 - 1

/-- Loop state of the single scan in `revealEditorLocation`. -/
structure ScanState where
  items : List Item
  explicitSlideLevel : Option Int
  autoSlideLevel : Nat
  pendingAutoSlideLevel : Nat
  foundCursor : Bool
deriving DecidableEq

def initState : ScanState := ⟨[], none, maxSafeInteger, 0, false⟩

/-- Cursor insertion guard at the top of the loop body: if the cursor has not
been placed yet and lies strictly before this token's start row, push a
cursor item. -/
def placeCursor (cursorLine row : Nat) (s : ScanState) : ScanState :=
  if s.foundCursor = false ∧ cursorLine < row then
    { s with foundCursor := true, items := s.items ++ [cursorItem cursorLine] }
  else s

/-- Per-token branch of the scan loop, after the cursor guard. -/
def tokenUpdate (row : Nat) (tt : TokenType) (s : ScanState) : ScanState :=
  match tt with
  | .front_matter markup =>
      { s with explicitSlideLevel := slideLevelFromYaml markup,
               items := s.items ++ [titleItem 0] }
  | .hr =>
      { s with items := s.items ++ [hrItem row],
               pendingAutoSlideLevel := 0 }
  | .heading_open level =>
      { s with items := s.items ++ [headingItem row level],
               pendingAutoSlideLevel :=
                 if level < s.autoSlideLevel then level else 0 }
  | .other =>
      if s.pendingAutoSlideLevel > 0 then
        { s with autoSlideLevel := s.pendingAutoSlideLevel,
                 pendingAutoSlideLevel := 0 }
      else s

/-- One iteration of the scan loop: unmapped tokens are skipped. -/
def scanStep (cursorLine : Nat) (s : ScanState) (token : Token) : ScanState :=
  match token.map with
  | none => s
  | some row => tokenUpdate row token.ttype (placeCursor cursorLine row s)

/-- JS `a || b` where `a : number | null`: null and 0 are falsy. -/
def jsOrElse (a : Option Int) (b : Int) : Int :=
  match a with
  | some v => if v = 0 then b else v
  | none => b

/-- Embedding of `revealEditorLocation`: fold the scan loop over the token
stream, append the cursor at the document's last line if it was never
placed, commit a still-pending auto slide level, replace the
`MAX_SAFE_INTEGER` sentinel by 0, and combine explicit and inferred levels
with JS `||`. -/
def revealEditorLocation (cursorLine lineCount : Nat) (tokens : List Token) :
    RevealEditorLocation :=
  let s := tokens.foldl (scanStep cursorLine) initState
  let items := if s.foundCursor then s.items
               else s.items ++ [cursorItem (lineCount - 1)]
  let auto1 := if s.pendingAutoSlideLevel > 0 then s.pendingAutoSlideLevel
               else s.autoSlideLevel
  let auto2 := if auto1 = maxSafeInteger then 0 else auto1
  { items := items, slideLevel := jsOrElse s.explicitSlideLevel (auto2 : Int) }

/-- Embedding of the item loop in `revealSlideIndex`: return
`max slideIndex 0` at the first cursor item, count title and hr items and
headings at or above the slide level, and fall back to 0 past the end. -/
def slideIndexCore (slideLevel : Int) : Int → List Item → Int
  | _, [] => 0
  | slideIndex, item :: rest =>
    if item.ttype = ItemType.cursor then
      max slideIndex 0
    else if item.ttype = ItemType.title ∨ item.ttype = ItemType.hr then
      slideIndexCore slideLevel (slideIndex + 1) rest
    else if item.ttype = ItemType.heading ∧ (item.level : Int) ≤ slideLevel then
      slideIndexCore slideLevel (slideIndex + 1) rest
    else
      slideIndexCore slideLevel slideIndex rest

/-- Embedding of `revealSlideIndex`. -/
def revealSlideIndex (cursorLine lineCount : Nat) (tokens : List Token) : Int :=
  let location := revealEditorLocation cursorLine lineCount tokens
  slideIndexCore location.slideLevel (-1) location.items

/-! ### Reference decomposition used by the proofs

`autoStep`/`resolveSlideLevel` replay only the slide-level state of the scan
(a projection of `scanStep` that forgets items and cursor placement), and
`emit`/`emitAll` describe the non-cursor items each token contributes. -/

/-- Slide-level fragment of the scan state. -/
structure AutoState where
  explicitSlideLevel : Option Int
  autoSlideLevel : Nat
  pendingAutoSlideLevel : Nat
deriving DecidableEq

def autoInit : AutoState := ⟨none, maxSafeInteger, 0⟩

/-- Slide-level projection of one scan iteration. -/
def autoStep (s : AutoState) (token : Token) : AutoState :=
  match token.map with
  | none => s
  | some _ =>
    match token.ttype with
    | .front_matter markup => { s with explicitSlideLevel := slideLevelFromYaml markup }
    | .hr => { s with pendingAutoSlideLevel := 0 }
    | .heading_open level =>
        { s with pendingAutoSlideLevel :=
            if level < s.autoSlideLevel then level else 0 }
    | .other =>
        if s.pendingAutoSlideLevel > 0 then
          { s with autoSlideLevel := s.pendingAutoSlideLevel,
                   pendingAutoSlideLevel := 0 }
        else s

/-- The resolver run on its own: fold the slide-level projection and apply
the same end-of-scan fixups as `revealEditorLocation`. -/
def resolveSlideLevel (tokens : List Token) : Int :=
  let a := tokens.foldl autoStep autoInit
  let auto1 := if a.pendingAutoSlideLevel > 0 then a.pendingAutoSlideLevel
               else a.autoSlideLevel
  let auto2 := if auto1 = maxSafeInteger then 0 else auto1
  jsOrElse a.explicitSlideLevel (auto2 : Int)

def autoProj (s : ScanState) : AutoState :=
  ⟨s.explicitSlideLevel, s.autoSlideLevel, s.pendingAutoSlideLevel⟩

lemma autoProj_placeCursor (c row : Nat) (s : ScanState) :
    autoProj (placeCursor c row s) = autoProj s := by
  unfold placeCursor
  split <;> rfl

lemma autoProj_tokenUpdate (row : Nat) (tt : TokenType) (s : ScanState) :
    autoProj (tokenUpdate row tt s) = autoStep (autoProj s) ⟨some row, tt⟩ := by
  cases tt with
  | front_matter m => rfl
  | hr => rfl
  | heading_open l => rfl
  | other =>
    show autoProj (tokenUpdate row TokenType.other s) = _
    unfold tokenUpdate autoStep
    by_cases h : s.pendingAutoSlideLevel > 0
    · simp only [h, if_pos, autoProj]
    · simp only [h, if_neg, autoProj]
      split <;> rfl

lemma autoProj_scanStep (c : Nat) (s : ScanState) (t : Token) :
    autoProj (scanStep c s t) = autoStep (autoProj s) t := by
  obtain ⟨map, tt⟩ := t
  cases map with
  | none => rfl
  | some row =>
    show autoProj (tokenUpdate row tt (placeCursor c row s)) = _
    rw [autoProj_tokenUpdate, autoProj_placeCursor]

lemma autoProj_foldl (c : Nat) (ts : List Token) (s : ScanState) :
    autoProj (ts.foldl (scanStep c) s) = ts.foldl autoStep (autoProj s) := by
  induction ts generalizing s with
  | nil => rfl
  | cons t ts ih =>
    simp only [List.foldl_cons, ih, autoProj_scanStep]

/-- The slide level returned by `revealEditorLocation` is exactly
`resolveSlideLevel` of the token stream; in particular it does not depend
on the cursor line or the line count. -/
lemma slideLevel_eq (c n : Nat) (toks : List Token) :
    (revealEditorLocation c n toks).slideLevel = resolveSlideLevel toks := by
  have h : autoProj (toks.foldl (scanStep c) initState)
      = toks.foldl autoStep autoInit := autoProj_foldl c toks initState
  simp only [revealEditorLocation, resolveSlideLevel, ← h]
  rfl

/-- Items a single token contributes to the sequence (never a cursor item). -/
def emitItems (row : Nat) : TokenType → List Item
  | .front_matter _ => [titleItem 0]
  | .hr => [hrItem row]
  | .heading_open level => [headingItem row level]
  | .other => []

def emit (t : Token) : List Item :=
  match t.map with
  | none => []
  | some row => emitItems row t.ttype

def emitAll : List Token → List Item
  | [] => []
  | t :: ts => emit t ++ emitAll ts

/-- Whether processing this token would place the cursor first: the token is
mapped and the cursor line is strictly before its start row. -/
def placesCursorBefore (cursorLine : Nat) (t : Token) : Bool :=
  match t.map with
  | none => false
  | some row => decide (cursorLine < row)

lemma emitAll_append (a b : List Token) :
    emitAll (a ++ b) = emitAll a ++ emitAll b := by
  induction a with
  | nil => rfl
  | cons t a ih => simp [emitAll, ih]

lemma emitAll_no_cursor (l : List Token) :
    ∀ i ∈ emitAll l, i.ttype ≠ ItemType.cursor := by
  induction l with
  | nil => intro i hi; simp [emitAll] at hi
  | cons t l ih =>
    intro i hi
    simp only [emitAll, List.mem_append] at hi
    rcases hi with hi | hi
    · obtain ⟨map, tt⟩ := t
      cases map with
      | none => simp [emit] at hi
      | some row =>
        cases tt with
        | front_matter m =>
          simp only [emit, emitItems, List.mem_singleton] at hi
          subst hi; simp [titleItem]
        | hr =>
          simp only [emit, emitItems, List.mem_singleton] at hi
          subst hi; simp [hrItem]
        | heading_open lvl =>
          simp only [emit, emitItems, List.mem_singleton] at hi
          subst hi; simp [headingItem]
        | other => simp [emit, emitItems] at hi
    · exact ih i hi

lemma tokenUpdate_items (row : Nat) (tt : TokenType) (s : ScanState) :
    (tokenUpdate row tt s).items = s.items ++ emitItems row tt := by
  cases tt with
  | front_matter m => rfl
  | hr => rfl
  | heading_open l => rfl
  | other =>
    show (tokenUpdate row TokenType.other s).items = s.items ++ []
    unfold tokenUpdate
    by_cases hp : s.pendingAutoSlideLevel > 0
    · simp only [hp, if_pos]
      simp
    · simp only [hp, if_neg]
      simp

lemma tokenUpdate_foundCursor (row : Nat) (tt : TokenType) (s : ScanState) :
    (tokenUpdate row tt s).foundCursor = s.foundCursor := by
  cases tt with
  | front_matter m => rfl
  | hr => rfl
  | heading_open l => rfl
  | other =>
    show (tokenUpdate row TokenType.other s).foundCursor = s.foundCursor
    unfold tokenUpdate
    by_cases hp : s.pendingAutoSlideLevel > 0
    · simp [hp]
    · simp [hp]

lemma placeCursor_found (c row : Nat) (s : ScanState) (h : s.foundCursor = true) :
    placeCursor c row s = s := by
  unfold placeCursor
  rw [if_neg]
  simp [h]

lemma placeCursor_notBefore (c row : Nat) (s : ScanState) (h : ¬ c < row) :
    placeCursor c row s = s := by
  unfold placeCursor
  rw [if_neg]
  simp [h]

/-- Once the cursor is placed, the rest of the scan just appends each
token's items. -/
lemma foldl_scan_found (c : Nat) (ts : List Token) (s : ScanState)
    (h : s.foundCursor = true) :
    (ts.foldl (scanStep c) s).items = s.items ++ emitAll ts ∧
      (ts.foldl (scanStep c) s).foundCursor = true := by
  induction ts generalizing s with
  | nil => simp [emitAll, h]
  | cons t ts ih =>
    obtain ⟨map, tt⟩ := t
    cases map with
    | none =>
      have hstep : scanStep c s ⟨none, tt⟩ = s := rfl
      rw [List.foldl_cons, hstep]
      obtain ⟨h1, h2⟩ := ih s h
      refine ⟨?_, h2⟩
      simp [h1, emitAll, emit]
    | some row =>
      have hstep : scanStep c s ⟨some row, tt⟩ = tokenUpdate row tt s := by
        show tokenUpdate row tt (placeCursor c row s) = tokenUpdate row tt s
        rw [placeCursor_found c row s h]
      rw [List.foldl_cons, hstep]
      obtain ⟨h1, h2⟩ := ih (tokenUpdate row tt s)
        (by rw [tokenUpdate_foundCursor, h])
      refine ⟨?_, h2⟩
      rw [h1, tokenUpdate_items]
      simp [emitAll, emit, List.append_assoc]

/-- Full characterization of the scan from a cursor-not-yet-found state:
the items are those of the tokens before the cursor split point, then the
cursor (if some token places it), then the items of the remaining tokens. -/
lemma foldl_scan_char (c : Nat) (ts : List Token) (s : ScanState)
    (h : s.foundCursor = false) :
    (ts.foldl (scanStep c) s).items
        = s.items ++ emitAll (ts.takeWhile (fun t => !placesCursorBefore c t))
            ++ (if (ts.dropWhile (fun t => !placesCursorBefore c t)).isEmpty then []
                else cursorItem c ::
                  emitAll (ts.dropWhile (fun t => !placesCursorBefore c t))) ∧
      (ts.foldl (scanStep c) s).foundCursor
        = !(ts.dropWhile (fun t => !placesCursorBefore c t)).isEmpty := by
  induction ts generalizing s with
  | nil => simp [emitAll, h]
  | cons t ts ih =>
    cases hpc : placesCursorBefore c t with
    | false =>
      have htw : (t :: ts).takeWhile (fun t => !placesCursorBefore c t)
          = t :: ts.takeWhile (fun t => !placesCursorBefore c t) := by
        simp [List.takeWhile_cons, hpc]
      have hdw : (t :: ts).dropWhile (fun t => !placesCursorBefore c t)
          = ts.dropWhile (fun t => !placesCursorBefore c t) := by
        simp [List.dropWhile_cons, hpc]
      obtain ⟨map, tt⟩ := t
      cases map with
      | none =>
        have hstep : scanStep c s ⟨none, tt⟩ = s := rfl
        rw [List.foldl_cons, hstep, htw, hdw]
        obtain ⟨h1, h2⟩ := ih s h
        refine ⟨?_, h2⟩
        rw [h1]
        simp [emitAll, emit]
      | some row =>
        have hrow : ¬ c < row := by
          simpa [placesCursorBefore] using hpc
        have hstep : scanStep c s ⟨some row, tt⟩ = tokenUpdate row tt s := by
          show tokenUpdate row tt (placeCursor c row s) = tokenUpdate row tt s
          rw [placeCursor_notBefore c row s hrow]
        rw [List.foldl_cons, hstep, htw, hdw]
        obtain ⟨h1, h2⟩ := ih (tokenUpdate row tt s)
          (by rw [tokenUpdate_foundCursor, h])
        refine ⟨?_, h2⟩
        rw [h1, tokenUpdate_items]
        simp [emitAll, emit, List.append_assoc]
    | true =>
      have htw : (t :: ts).takeWhile (fun t => !placesCursorBefore c t) = [] := by
        simp [List.takeWhile_cons, hpc]
      have hdw : (t :: ts).dropWhile (fun t => !placesCursorBefore c t)
          = t :: ts := by
        simp [List.dropWhile_cons, hpc]
      obtain ⟨map, tt⟩ := t
      cases map with
      | none => simp [placesCursorBefore] at hpc
      | some row =>
        have hrow : c < row := by
          simpa [placesCursorBefore] using hpc
        have hplace : placeCursor c row s
            = { s with foundCursor := true,
                       items := s.items ++ [cursorItem c] } := by
          unfold placeCursor
          rw [if_pos ⟨h, hrow⟩]
        have hstep : scanStep c s ⟨some row, tt⟩
            = tokenUpdate row tt
                { s with foundCursor := true,
                         items := s.items ++ [cursorItem c] } := by
          show tokenUpdate row tt (placeCursor c row s) = _
          rw [hplace]
        rw [List.foldl_cons, hstep, htw, hdw]
        obtain ⟨h1, h2⟩ := foldl_scan_found c ts
          (tokenUpdate row tt
            { s with foundCursor := true, items := s.items ++ [cursorItem c] })
          (by rw [tokenUpdate_foundCursor])
        refine ⟨?_, by simp [h2]⟩
        rw [h1, tokenUpdate_items]
        simp [emitAll, emit, List.append_assoc]

/-- The item sequence always decomposes as: items of the tokens up to the
cursor split point, one cursor item, items of the remaining tokens. -/
lemma items_char (c n : Nat) (toks : List Token) :
    (revealEditorLocation c n toks).items
      = emitAll (toks.takeWhile (fun t => !placesCursorBefore c t))
        ++ cursorItem
            (if (toks.dropWhile (fun t => !placesCursorBefore c t)).isEmpty
             then n - 1 else c)
           :: emitAll (toks.dropWhile (fun t => !placesCursorBefore c t)) := by
  obtain ⟨hi, hf⟩ := foldl_scan_char c toks initState rfl
  show (if (toks.foldl (scanStep c) initState).foundCursor
        then (toks.foldl (scanStep c) initState).items
        else (toks.foldl (scanStep c) initState).items ++ [cursorItem (n - 1)]) = _
  cases hd : (toks.dropWhile (fun t => !placesCursorBefore c t)).isEmpty with
  | true =>
    have hdnil : toks.dropWhile (fun t => !placesCursorBefore c t) = [] := by
      simpa [List.isEmpty_iff] using hd
    rw [hf, hd]
    simp only [Bool.not_true, if_neg, Bool.false_eq_true, not_false_iff]
    rw [hi, hd, hdnil]
    simp [initState, emitAll]
  | false =>
    rw [hf, hd]
    simp only [Bool.not_false, if_pos]
    rw [hi, hd]
    simp [initState]

/-- Whether the item loop counts this item toward the running index. -/
def countsAs (slideLevel : Int) (i : Item) : Bool :=
  match i.ttype with
  | .title => true
  | .hr => true
  | .heading => decide ((i.level : Int) ≤ slideLevel)
  | .cursor => false

/-- Number of counting items in a sequence. -/
def countQ (slideLevel : Int) (items : List Item) : Nat :=
  items.countP (countsAs slideLevel)

/-- Running the item loop over a cursor-free block, then a cursor item,
returns the running index incremented by the block's counting items,
clamped at 0; the items past the cursor are never inspected. -/
lemma slideIndexCore_split (sl : Int) (A : List Item) (B : List Item) (r : Nat)
    (si : Int) (hA : ∀ i ∈ A, i.ttype ≠ ItemType.cursor) :
    slideIndexCore sl si (A ++ cursorItem r :: B)
      = max (si + (countQ sl A : Int)) 0 := by
  induction A generalizing si with
  | nil =>
    simp [slideIndexCore, countQ, cursorItem]
  | cons i A ih =>
    have hi : i.ttype ≠ ItemType.cursor := hA i (List.mem_cons_self i A)
    have hA' : ∀ j ∈ A, j.ttype ≠ ItemType.cursor :=
      fun j hj => hA j (List.mem_cons_of_mem i hj)
    have hcnt : countQ sl (i :: A)
        = countQ sl A + (if countsAs sl i then 1 else 0) := by
      simp [countQ, List.countP_cons]
    cases hty : i.ttype with
    | cursor => exact absurd hty hi
    | title =>
      have : slideIndexCore sl si ((i :: A) ++ cursorItem r :: B)
          = slideIndexCore sl (si + 1) (A ++ cursorItem r :: B) := by
        simp [slideIndexCore, hty]
      rw [this, ih (si + 1) hA', hcnt]
      have hcount : countsAs sl i = true := by simp [countsAs, hty]
      rw [hcount]
      congr 1
      simp only [if_true]
      push_cast
      ring
    | hr =>
      have : slideIndexCore sl si ((i :: A) ++ cursorItem r :: B)
          = slideIndexCore sl (si + 1) (A ++ cursorItem r :: B) := by
        simp [slideIndexCore, hty]
      rw [this, ih (si + 1) hA', hcnt]
      have hcount : countsAs sl i = true := by simp [countsAs, hty]
      rw [hcount]
      congr 1
      simp only [if_true]
      push_cast
      ring
    | heading =>
      by_cases hlev : (i.level : Int) ≤ sl
      · have : slideIndexCore sl si ((i :: A) ++ cursorItem r :: B)
            = slideIndexCore sl (si + 1) (A ++ cursorItem r :: B) := by
          simp [slideIndexCore, hty, hlev]
        rw [this, ih (si + 1) hA', hcnt]
        have hcount : countsAs sl i = true := by simp [countsAs, hty, hlev]
        rw [hcount]
        congr 1
        simp only [if_true]
        push_cast
        ring
      · have : slideIndexCore sl si ((i :: A) ++ cursorItem r :: B)
            = slideIndexCore sl si (A ++ cursorItem r :: B) := by
          simp [slideIndexCore, hty, hlev]
        rw [this, ih si hA', hcnt]
        have hcount : countsAs sl i = false := by simp [countsAs, hty, hlev]
        rw [hcount]
        simp

/-- Master characterization: the returned ordinal is the number of counting
items contributed by the tokens before the cursor split point, minus one,
clamped at 0. -/
lemma revealSlideIndex_eq (c n : Nat) (toks : List Token) :
    revealSlideIndex c n toks
      = max ((countQ (resolveSlideLevel toks)
              (emitAll (toks.takeWhile (fun t => !placesCursorBefore c t))) : Int)
             - 1) 0 := by
  show slideIndexCore (revealEditorLocation c n toks).slideLevel (-1)
      (revealEditorLocation c n toks).items = _
  rw [slideLevel_eq c n toks, items_char c n toks]
  rw [slideIndexCore_split (resolveSlideLevel toks) _ _ _ (-1)
    (emitAll_no_cursor _)]
  have harith : (-1 : Int) + (countQ (resolveSlideLevel toks)
      (emitAll (toks.takeWhile (fun t => !placesCursorBefore c t))) : Int)
      = (countQ (resolveSlideLevel toks)
          (emitAll (toks.takeWhile (fun t => !placesCursorBefore c t))) : Int)
        - 1 := by ring
  rw [harith]

lemma placesCursorBefore_mono (c c' : Nat) (h : c ≤ c') (t : Token)
    (hp : placesCursorBefore c t = false) : placesCursorBefore c' t = false := by
  obtain ⟨map, tt⟩ := t
  cases map with
  | none => rfl
  | some row =>
    simp only [placesCursorBefore, decide_eq_false_iff_not] at hp ⊢
    omega

lemma countQ_takeWhile_mono (sl : Int) (c c' : Nat) (h : c ≤ c')
    (l : List Token) :
    countQ sl (emitAll (l.takeWhile (fun t => !placesCursorBefore c t)))
      ≤ countQ sl (emitAll (l.takeWhile (fun t => !placesCursorBefore c' t))) := by
  induction l with
  | nil => exact Nat.le_refl _
  | cons t l ih =>
    cases hp : placesCursorBefore c t with
    | true =>
      have h1 : (t :: l).takeWhile (fun t => !placesCursorBefore c t) = [] := by
        simp [List.takeWhile_cons, hp]
      rw [h1]
      exact Nat.zero_le _
    | false =>
      have hp' : placesCursorBefore c' t = false :=
        placesCursorBefore_mono c c' h t hp
      have h1 : (t :: l).takeWhile (fun t => !placesCursorBefore c t)
          = t :: l.takeWhile (fun t => !placesCursorBefore c t) := by
        simp [List.takeWhile_cons, hp]
      have h2 : (t :: l).takeWhile (fun t => !placesCursorBefore c' t)
          = t :: l.takeWhile (fun t => !placesCursorBefore c' t) := by
        simp [List.takeWhile_cons, hp']
      rw [h1, h2]
      simp only [emitAll, countQ, List.countP_append]
      exact Nat.add_le_add_left ih _

lemma takeWhile_append_all {α : Type} (p : α → Bool) (A B : List α)
    (h : ∀ x ∈ A, p x = true) :
    (A ++ B).takeWhile p = A ++ B.takeWhile p := by
  induction A with
  | nil => simp
  | cons a A ih =>
    have ha : p a = true := h a (List.mem_cons_self a A)
    simp [List.takeWhile_cons, ha,
      ih (fun x hx => h x (List.mem_cons_of_mem a hx))]

/-- Rewrites for the JS truthiness chain. -/
lemma jsNumOr_none (b : Option Int) : jsNumOr none b = b := rfl

lemma jsNumOr_some_ne (w : Int) (b : Option Int) (hw : w ≠ 0) :
    jsNumOr (some w) b = some w := by
  simp [jsNumOr, hw]

lemma jsNumOr_some_zero (b : Option Int) : jsNumOr (some 0) b = b := by
  simp [jsNumOr]

lemma jsNumOr_base_ne_zero (a : Option Int) (v : Int)
    (h : jsNumOr a none = some v) : v ≠ 0 := by
  cases a with
  | none => simp [jsNumOr] at h
  | some w =>
    by_cases hw : w = 0
    · subst hw
      rw [jsNumOr_some_zero] at h
      exact absurd h (by simp)
    · rw [jsNumOr_some_ne w none hw] at h
      obtain rfl : w = v := by injection h
      exact hw

/-- The YAML lookup chain never yields the explicit value 0: a 0 is falsy
and falls through to `null`. -/
lemma slideLevelFromYaml_ne_zero (pr : ParseResult) (v : Int)
    (h : slideLevelFromYaml pr = some v) : v ≠ 0 := by
  cases pr with
  | failure => simp [slideLevelFromYaml] at h
  | nullMeta => simp [slideLevelFromYaml] at h
  | meta m =>
    show v ≠ 0
    have h' : jsNumOr m.slideLevel (jsNumOr (nestedSlideLevel m) none)
        = some v := h
    cases hms : m.slideLevel with
    | none =>
      rw [hms, jsNumOr_none] at h'
      exact jsNumOr_base_ne_zero _ v h'
    | some w =>
      by_cases hw : w = 0
      · subst hw
        rw [hms, jsNumOr_some_zero] at h'
        exact jsNumOr_base_ne_zero _ v h'
      · rw [hms, jsNumOr_some_ne w _ hw] at h'
        obtain rfl : w = v := by injection h'
        exact hw

/-- If the state holds the explicit level `o` and every mapped front-matter
token in the remaining stream yields `o`, the scan ends with `o`. -/
lemma explicit_foldl_pres (o : Option Int) (ts : List Token) (a : AutoState)
    (ha : a.explicitSlideLevel = o)
    (hts : ∀ t ∈ ts, ∀ pr, t.ttype = TokenType.front_matter pr →
      slideLevelFromYaml pr = o) :
    (ts.foldl autoStep a).explicitSlideLevel = o := by
  induction ts generalizing a with
  | nil => exact ha
  | cons t ts ih =>
    rw [List.foldl_cons]
    refine ih (autoStep a t) ?_
      (fun u hu pr hpr => hts u (List.mem_cons_of_mem t hu) pr hpr)
    obtain ⟨map, tt⟩ := t
    cases map with
    | none => exact ha
    | some row =>
      cases tt with
      | front_matter pr =>
        have hy := hts ⟨some row, .front_matter pr⟩ (List.mem_cons_self _ _) pr rfl
        simpa [autoStep] using hy
      | hr => simpa [autoStep] using ha
      | heading_open lvl => simpa [autoStep] using ha
      | other =>
        show (autoStep a ⟨some row, TokenType.other⟩).explicitSlideLevel = o
        unfold autoStep
        by_cases hp : a.pendingAutoSlideLevel > 0
        · simp [hp, ha]
        · simp [hp, ha]

/-- If the stream contains a mapped front-matter token and every mapped
front-matter token yields `some v`, the scan ends with `some v`. -/
lemma explicit_foldl_set (v : Int) (ts : List Token) (a : AutoState)
    (hts : ∀ t ∈ ts, ∀ pr, t.ttype = TokenType.front_matter pr →
      slideLevelFromYaml pr = some v)
    (hex : ∃ t ∈ ts, (∃ row, t.map = some row) ∧
      ∃ pr, t.ttype = TokenType.front_matter pr) :
    (ts.foldl autoStep a).explicitSlideLevel = some v := by
  induction ts generalizing a with
  | nil =>
    obtain ⟨t, ht, _⟩ := hex
    simp at ht
  | cons t ts ih =>
    rw [List.foldl_cons]
    by_cases hfm : (∃ row, t.map = some row) ∧
        ∃ pr, t.ttype = TokenType.front_matter pr
    · obtain ⟨⟨row, hrow⟩, pr, hpr⟩ := hfm
      have hy : slideLevelFromYaml pr = some v :=
        hts t (List.mem_cons_self _ _) pr hpr
      have hstep : (autoStep a t).explicitSlideLevel = some v := by
        obtain ⟨map, tt⟩ := t
        simp only at hrow hpr
        subst hrow
        subst hpr
        simpa [autoStep] using hy
      exact explicit_foldl_pres (some v) ts (autoStep a t) hstep
        (fun u hu pr' hpr' => hts u (List.mem_cons_of_mem t hu) pr' hpr')
    · obtain ⟨u, hu, hprops⟩ := hex
      rcases List.mem_cons.mp hu with rfl | hu'
      · exact absurd hprops hfm
      · exact ih (autoStep a t)
          (fun w hw pr hpr => hts w (List.mem_cons_of_mem t hw) pr hpr)
          ⟨u, hu', hprops⟩

/-- Whether a token is a front-matter block. -/
def isFrontMatterTok (t : Token) : Bool :=
  match t.ttype with
  | .front_matter _ => true
  | _ => false

/-- In a stream without heading and hr tokens, the counting items are at
most the front-matter tokens. -/
lemma countQ_emitAll_le_fm (sl : Int) (l : List Token)
    (hnoh : ∀ t ∈ l, ∀ lvl, t.ttype ≠ TokenType.heading_open lvl)
    (hnohr : ∀ t ∈ l, t.ttype ≠ TokenType.hr) :
    countQ sl (emitAll l) ≤ l.countP isFrontMatterTok := by
  induction l with
  | nil => simp [emitAll, countQ]
  | cons t l ih =>
    have ihl := ih (fun u hu => hnoh u (List.mem_cons_of_mem t hu))
      (fun u hu => hnohr u (List.mem_cons_of_mem t hu))
    have hstep : countQ sl (emitAll (t :: l))
        = countQ sl (emit t) + countQ sl (emitAll l) := by
      simp [emitAll, countQ, List.countP_append]
    rw [hstep]
    obtain ⟨map, tt⟩ := t
    cases tt with
    | front_matter pr =>
      have hem : countQ sl (emit ⟨map, .front_matter pr⟩) ≤ 1 := by
        cases map with
        | none => simp [emit, countQ]
        | some row => simp [emit, emitItems, countQ, List.countP_cons,
            countsAs, titleItem]
      have hcons : (⟨map, TokenType.front_matter pr⟩ :: l).countP isFrontMatterTok
          = l.countP isFrontMatterTok + 1 := by
        simp [List.countP_cons, isFrontMatterTok]
      rw [hcons]
      omega
    | hr => exact absurd rfl (hnohr ⟨map, .hr⟩ (List.mem_cons_self _ _))
    | heading_open lvl =>
      exact absurd rfl (hnoh ⟨map, .heading_open lvl⟩ (List.mem_cons_self _ _) lvl)
    | other =>
      have hem : countQ sl (emit ⟨map, .other⟩) = 0 := by
        cases map with
        | none => simp [emit, countQ]
        | some row => simp [emit, emitItems, countQ]
      have hcons : (⟨map, TokenType.other⟩ :: l).countP isFrontMatterTok
          = l.countP isFrontMatterTok := by
        simp [List.countP_cons, isFrontMatterTok]
      rw [hcons, hem]
      omega

/-- Whether a token is a heading-open token. -/
def isHeadingTok (t : Token) : Bool :=
  match t.ttype with
  | .heading_open _ => true
  | _ => false

/-- Whether a token is a horizontal rule. -/
def isHrTok (t : Token) : Bool :=
  match t.ttype with
  | .hr => true
  | _ => false

/-- The parse result carried by a front-matter token, if any. -/
def fmParseOf (t : Token) : Option ParseResult :=
  match t.ttype with
  | .front_matter pr => some pr
  | _ => none

/-- The explicit slide level a front-matter token would yield, if any. -/
def fmSlideLevel (t : Token) : Option (Option Int) :=
  match t.ttype with
  | .front_matter pr => some (slideLevelFromYaml pr)
  | _ => none

lemma isHeadingTok_false (t : Token) (h : isHeadingTok t = false) :
    ∀ lvl, t.ttype ≠ TokenType.heading_open lvl := by
  intro lvl hcon
  obtain ⟨map, tt⟩ := t
  simp only at hcon
  subst hcon
  simp [isHeadingTok] at h

lemma isHrTok_false (t : Token) (h : isHrTok t = false) :
    t.ttype ≠ TokenType.hr := by
  intro hcon
  obtain ⟨map, tt⟩ := t
  simp only at hcon
  subst hcon
  simp [isHrTok] at h

lemma fmParseOf_eq (t : Token) (pr : ParseResult)
    (h : t.ttype = TokenType.front_matter pr) : fmParseOf t = some pr := by
  unfold fmParseOf
  rw [h]

lemma fmSlideLevel_eq (t : Token) (pr : ParseResult)
    (h : t.ttype = TokenType.front_matter pr) :
    fmSlideLevel t = some (slideLevelFromYaml pr) := by
  unfold fmSlideLevel
  rw [h]

lemma fmSlideLevel_some (t : Token) (o : Option Int)
    (h : fmSlideLevel t = some o) :
    ∃ pr, t.ttype = TokenType.front_matter pr ∧ slideLevelFromYaml pr = o := by
  obtain ⟨map, tt⟩ := t
  cases tt with
  | front_matter pr =>
    refine ⟨pr, rfl, ?_⟩
    have : some (slideLevelFromYaml pr) = some o := h
    injection this
  | hr => simp [fmSlideLevel] at h
  | heading_open lvl => simp [fmSlideLevel] at h
  | other => simp [fmSlideLevel] at h

/-! ### Concrete token streams used in counterexamples and witnesses -/

/-- The spec's worked scenario: front matter (no slide-level) at row 0,
level-1 heading at row 2, level-2 heading at row 5, hr at row 9. -/
def scenarioTokens : List Token :=
  [⟨some 0, .front_matter (.meta ⟨none, none⟩)⟩,
   ⟨some 2, .heading_open 1⟩,
   ⟨some 5, .heading_open 2⟩,
   ⟨some 9, .hr⟩]

/-- Stream showing a pending candidate being discarded, not committed:
heading 3 (committed by the content token), then heading 2 (pending),
then heading 3 again (equal to the running minimum). -/
def discardTokens : List Token :=
  [⟨some 0, .heading_open 3⟩, ⟨some 1, .other⟩,
   ⟨some 2, .heading_open 2⟩, ⟨some 3, .heading_open 3⟩]

/-- Front matter declaring `slide-level: 0`, followed by a level-1 heading
and content. -/
def zeroLevelTokens : List Token :=
  [⟨some 0, .front_matter (.meta ⟨some 0, none⟩)⟩,
   ⟨some 1, .heading_open 1⟩, ⟨some 2, .other⟩]

/-- Front matter declaring `slide-level: 2`, followed by a level-1 heading
and content (heading usage alone would infer level 1). -/
def explicitTokens : List Token :=
  [⟨some 0, .front_matter (.meta ⟨some 2, none⟩)⟩,
   ⟨some 1, .heading_open 1⟩, ⟨some 2, .other⟩]

/-- The scenario stream with a content token inside the level-2 section,
so the level-2 candidate actually commits. -/
def richTokens : List Token :=
  [⟨some 0, .front_matter (.meta ⟨none, none⟩)⟩,
   ⟨some 2, .heading_open 1⟩,
   ⟨some 5, .heading_open 2⟩,
   ⟨some 7, .other⟩,
   ⟨some 9, .hr⟩]

/-- A stream whose only front-matter block fails to parse. -/
def failingTokens : List Token :=
  [⟨some 0, .front_matter .failure⟩, ⟨some 1, .heading_open 1⟩]

/-- Two level-1 sections with content, cursor placed on the second heading. -/
def roundTripTokens : List Token :=
  [⟨some 2, .heading_open 1⟩, ⟨some 3, .other⟩, ⟨some 5, .heading_open 1⟩]

/-- Front matter and plain content only: no headings, no rules. -/
def fmOnlyTokens : List Token :=
  [⟨some 0, .front_matter (.meta ⟨none, none⟩)⟩, ⟨some 1, .other⟩]

/-! ### Claims -/

/-- C1 (counterexample). On the literal token stream
[front-matter(row 0, slide-level absent), heading(row 2, level 1),
heading(row 5, level 2), hr(row 9)] with cursor at line 6, the code does
NOT infer slide level 2 and the locator does NOT return ordinal 2: the
level-2 candidate is still pending when the horizontal rule resets it,
no non-heading token ever commits it, so the inferred level is 0 and
neither heading counts. -/
theorem c1_scenario_counterexample :
    ¬ ((revealEditorLocation 6 10 scenarioTokens).slideLevel = 2 ∧
        revealSlideIndex 6 10 scenarioTokens = 2) := by decide

/-- C1 (amended). For the token stream [front-matter at row 0 with no
slide-level, heading at row 2 with level 1, heading at row 5 with level 2,
horizontal rule at row 9] and cursor at line 6, the resolver infers slide
level 0 and the locator returns ordinal 0 (with a content token between the
level-2 heading and the rule, as in an actual document with body text, the
values 2 and 2 claimed by the spec are produced — see the stream
`richTokens`). -/
theorem c1_scenario_amended :
    ((revealEditorLocation 6 10 scenarioTokens).slideLevel = 0 ∧
      revealSlideIndex 6 10 scenarioTokens = 0) ∧
    ((revealEditorLocation 6 10 richTokens).slideLevel = 2 ∧
      revealSlideIndex 6 10 richTokens = 2) := by decide

/-- C2 (counterexample). On the stream [heading 3 at row 0, content at
row 1, heading 2 at row 2, heading 3 at row 3], the running minimum when
the final heading arrives is 3 and the pending candidate is 2; the claim
says that candidate is committed, which would make the inferred level 2,
but the code discards it and commits the still-pending 3 at end of scan:
the inferred level is 3. -/
theorem c2_commit_counterexample :
    (revealEditorLocation 0 4 discardTokens).slideLevel = 3 ∧
      (revealEditorLocation 0 4 discardTokens).slideLevel ≠ 2 := by decide

/-- C2 (amended). During inference, when a mapped heading token's level is
equal to or deeper than the running minimum, the pending candidate is
DISCARDED (reset to none), not committed: the running minimum
(`autoSlideLevel`) and the explicit level are unchanged and the pending
slot becomes 0. Commitment of a pending candidate happens only at a
mapped token of a non-heading, non-hr, non-front-matter type, or at end
of scan. -/
theorem c2_equal_or_deeper_discards (s : AutoState) (row level : Nat)
    (h : ¬ level < s.autoSlideLevel) :
    (autoStep s ⟨some row, TokenType.heading_open level⟩).pendingAutoSlideLevel
        = 0 ∧
    (autoStep s ⟨some row, TokenType.heading_open level⟩).autoSlideLevel
        = s.autoSlideLevel ∧
    (autoStep s ⟨some row, TokenType.heading_open level⟩).explicitSlideLevel
        = s.explicitSlideLevel := by
  refine ⟨?_, rfl, rfl⟩
  simp [autoStep, h]

theorem c2_equal_or_deeper_discards_witness :
    ¬ (3 : Nat) < (3 : Nat) ∧
    ((autoStep ⟨none, 3, 2⟩
        ⟨some 0, TokenType.heading_open 3⟩).pendingAutoSlideLevel = 0 ∧
      (autoStep ⟨none, 3, 2⟩
        ⟨some 0, TokenType.heading_open 3⟩).autoSlideLevel = 3 ∧
      (autoStep ⟨none, 3, 2⟩
        ⟨some 0, TokenType.heading_open 3⟩).explicitSlideLevel = none) :=
  ⟨by decide, c2_equal_or_deeper_discards ⟨none, 3, 2⟩ 0 3 (by decide)⟩

/-- C3 (counterexample). Front matter whose configuration contains the
slide-level integer 0 does not make 0 the result: 0 is falsy under the JS
`||` used both in the YAML lookup chain and when combining explicit and
inferred levels, so heading usage still decides the level (here 1). -/
theorem c3_explicit_zero_counterexample :
    (revealEditorLocation 0 3 zeroLevelTokens).slideLevel = 1 ∧
      (revealEditorLocation 0 3 zeroLevelTokens).slideLevel ≠ 0 := by decide

/-- C3 (amended). For every document whose mapped front-matter tokens all
yield the same explicit slide-level `v` through the lookup chain (such a
yielded value is necessarily nonzero, i.e. truthy), and at least one mapped
front-matter token is present, `v` is the resolver's result regardless of
heading usage. -/
theorem c3_truthy_explicit_overrides (c n : Nat) (toks : List Token) (v : Int)
    (hall : ∀ t ∈ toks, fmSlideLevel t = none ∨ fmSlideLevel t = some (some v))
    (hex : ∃ t ∈ toks, t.map ≠ none ∧ fmSlideLevel t = some (some v)) :
    (revealEditorLocation c n toks).slideLevel = v := by
  have hall' : ∀ t ∈ toks, ∀ pr, t.ttype = TokenType.front_matter pr →
      slideLevelFromYaml pr = some v := by
    intro t ht pr hpr
    have hf := fmSlideLevel_eq t pr hpr
    rcases hall t ht with h0 | h0
    · rw [hf] at h0
      cases h0
    · rw [hf] at h0
      injection h0
  have hex' : ∃ t ∈ toks, (∃ row, t.map = some row) ∧
      ∃ pr, t.ttype = TokenType.front_matter pr := by
    obtain ⟨t, ht, hmap, hfm⟩ := hex
    obtain ⟨pr, hpr, hy⟩ := fmSlideLevel_some t (some v) hfm
    refine ⟨t, ht, ?_, pr, hpr⟩
    cases hm : t.map with
    | none => exact absurd hm hmap
    | some row => exact ⟨row, rfl⟩
  have hv : v ≠ 0 := by
    obtain ⟨t, ht, hmap, hfm⟩ := hex
    obtain ⟨pr, hpr, hy⟩ := fmSlideLevel_some t (some v) hfm
    exact slideLevelFromYaml_ne_zero pr v hy
  rw [slideLevel_eq]
  have he := explicit_foldl_set v toks autoInit hall' hex'
  simp only [resolveSlideLevel]
  rw [he]
  simp [jsOrElse, hv]

theorem c3_truthy_explicit_overrides_witness :
    (∀ t ∈ explicitTokens,
        fmSlideLevel t = none ∨ fmSlideLevel t = some (some 2)) ∧
    (∃ t ∈ explicitTokens, t.map ≠ none ∧ fmSlideLevel t = some (some 2)) ∧
    (revealEditorLocation 4 3 explicitTokens).slideLevel = 2 :=
  ⟨by decide, by decide,
    c3_truthy_explicit_overrides 4 3 explicitTokens 2 (by decide) (by decide)⟩

/-- C4. For every fixed token stream and line count, the ordinal returned
by the combined resolve-and-locate operation is monotonically
non-decreasing in the cursor line. -/
theorem c4_ordinal_monotone (n : Nat) (toks : List Token) (c c' : Nat)
    (h : c ≤ c') :
    revealSlideIndex c n toks ≤ revealSlideIndex c' n toks := by
  rw [revealSlideIndex_eq c n toks, revealSlideIndex_eq c' n toks]
  have hle := countQ_takeWhile_mono (resolveSlideLevel toks) c c' h toks
  have hcast : ((countQ (resolveSlideLevel toks)
        (emitAll (toks.takeWhile (fun t => !placesCursorBefore c t)))) : Int)
      ≤ ((countQ (resolveSlideLevel toks)
        (emitAll (toks.takeWhile (fun t => !placesCursorBefore c' t)))) : Int) := by
    exact_mod_cast hle
  have h1 : ((countQ (resolveSlideLevel toks)
        (emitAll (toks.takeWhile (fun t => !placesCursorBefore c t)))) : Int) - 1
      ≤ ((countQ (resolveSlideLevel toks)
        (emitAll (toks.takeWhile (fun t => !placesCursorBefore c' t)))) : Int) - 1 := by
    omega
  exact max_le_max h1 (le_refl 0)

theorem c4_ordinal_monotone_witness :
    (1 : Nat) ≤ 6 ∧
      revealSlideIndex 1 10 richTokens ≤ revealSlideIndex 6 10 richTokens :=
  ⟨by decide, c4_ordinal_monotone 10 richTokens 1 6 (by decide)⟩

/-- C10. The resolved slide level does not depend on the cursor position:
two runs of `revealEditorLocation` on the same token stream with different
cursor lines produce equal `slideLevel` values. -/
theorem c10_slideLevel_cursor_independent (n : Nat) (toks : List Token)
    (c₁ c₂ : Nat) :
    (revealEditorLocation c₁ n toks).slideLevel
      = (revealEditorLocation c₂ n toks).slideLevel := by
  rw [slideLevel_eq, slideLevel_eq]

/-- C5 (counterexample). When slide-level is defined both at the top level
(with value 0) and nested under format.revealjs.slide-level (value 3), the
nested value is used, not the top-level one: the JS `||` chain skips the
falsy top-level 0. -/
theorem c5_priority_counterexample :
    slideLevelFromYaml (ParseResult.meta ⟨some 0, some ⟨some ⟨some 3⟩⟩⟩)
        = some 3 ∧
      slideLevelFromYaml (ParseResult.meta ⟨some 0, some ⟨some ⟨some 3⟩⟩⟩)
        ≠ some 0 := by decide

/-- C5 (amended). The lookup paths are tried in priority order under JS
truthiness: a nonzero top-level slide-level is the one used regardless of
the nested key; a top-level 0 falls through to the nested lookup; and a
missing `format` mapping makes the nested lookup yield nothing rather than
raising. -/
theorem c5_truthy_priority :
    (∀ (m : FrontMeta) (v : Int), m.slideLevel = some v → v ≠ 0 →
        slideLevelFromYaml (ParseResult.meta m) = some v) ∧
    (∀ m : FrontMeta, m.slideLevel = some 0 →
        slideLevelFromYaml (ParseResult.meta m)
          = jsNumOr (nestedSlideLevel m) none) ∧
    (∀ s : Option Int, nestedSlideLevel ⟨s, none⟩ = none) := by
  refine ⟨?_, ?_, ?_⟩
  · intro m v h1 h2
    show jsNumOr m.slideLevel (jsNumOr (nestedSlideLevel m) none) = some v
    rw [h1, jsNumOr_some_ne v _ h2]
  · intro m h
    show jsNumOr m.slideLevel (jsNumOr (nestedSlideLevel m) none) = _
    rw [h, jsNumOr_some_zero]
  · intro s
    rfl

theorem c5_truthy_priority_witness :
    ((⟨some 2, some ⟨some ⟨some 3⟩⟩⟩ : FrontMeta).slideLevel = some 2) ∧
    ((2 : Int) ≠ 0) ∧
    slideLevelFromYaml (ParseResult.meta ⟨some 2, some ⟨some ⟨some 3⟩⟩⟩)
      = some 2 :=
  ⟨rfl, by decide,
    c5_truthy_priority.1 ⟨some 2, some ⟨some ⟨some 3⟩⟩⟩ 2 rfl (by decide)⟩

/-- C6. The resolver (a total function in this embedding) treats a
front-matter block whose parse fails as providing no explicit slide level,
and on a stream whose front-matter blocks all fail to parse the result is
the inferred level, a natural number — never negative, and 0 in the worst
case of nothing to infer. -/
theorem c6_parse_failure_safe :
    slideLevelFromYaml ParseResult.failure = none ∧
    ∀ (c n : Nat) (toks : List Token),
      (∀ t ∈ toks, fmParseOf t = none ∨ fmParseOf t = some ParseResult.failure) →
      0 ≤ (revealEditorLocation c n toks).slideLevel := by
  constructor
  · rfl
  · intro c n toks hfail
    rw [slideLevel_eq]
    have he : (toks.foldl autoStep autoInit).explicitSlideLevel = none := by
      apply explicit_foldl_pres none toks autoInit rfl
      intro t ht pr hpr
      have hp := fmParseOf_eq t pr hpr
      rcases hfail t ht with h0 | h0
      · rw [hp] at h0
        cases h0
      · rw [hp] at h0
        have : pr = ParseResult.failure := by injection h0
        rw [this]
        rfl
    simp only [resolveSlideLevel]
    rw [he]
    simp only [jsOrElse]
    exact Int.natCast_nonneg _

theorem c6_parse_failure_safe_witness :
    (∀ t ∈ failingTokens,
        fmParseOf t = none ∨ fmParseOf t = some ParseResult.failure) ∧
      0 ≤ (revealEditorLocation 0 2 failingTokens).slideLevel :=
  ⟨by decide, c6_parse_failure_safe.2 0 2 failingTokens (by decide)⟩

/-- C7. For a document (token start rows non-decreasing) and a cursor
placed exactly at the start line of a heading whose level qualifies as a
boundary for the resolver's own slide level, the cursor split point falls
strictly after that heading (first conjunct: the heading is inside the
counted region together with every earlier token), and the returned
ordinal counts that heading (the explicit `+ 1` term). -/
theorem c7_round_trip (n : Nat) (toks pre post : List Token) (c lvl : Nat)
    (htoks : toks = pre ++ ⟨some c, TokenType.heading_open lvl⟩ :: post)
    (hsort : List.Pairwise (· ≤ ·) (toks.filterMap Token.map))
    (hlvl : (lvl : Int) ≤ (revealEditorLocation c n toks).slideLevel) :
    toks.takeWhile (fun t => !placesCursorBefore c t)
      = pre ++ ⟨some c, TokenType.heading_open lvl⟩ ::
          post.takeWhile (fun t => !placesCursorBefore c t) ∧
    revealSlideIndex c n toks
      = max ((countQ (resolveSlideLevel toks) (emitAll pre) : Int) + 1
          + (countQ (resolveSlideLevel toks)
              (emitAll (post.takeWhile (fun t => !placesCursorBefore c t))) : Int)
          - 1) 0 := by
  subst htoks
  have hcross : ∀ a ∈ pre.filterMap Token.map, a ≤ c := by
    rw [List.filterMap_append] at hsort
    have hsplit := (List.pairwise_append.mp hsort).2.2
    intro a ha
    exact hsplit a ha c (by simp)
  have hallpre : ∀ x ∈ pre ++ [(⟨some c, TokenType.heading_open lvl⟩ : Token)],
      (fun t => !placesCursorBefore c t) x = true := by
    intro x hx
    rcases List.mem_append.mp hx with hx | hx
    · obtain ⟨map, tt⟩ := x
      cases map with
      | none => rfl
      | some row =>
        have hrow : row ≤ c := by
          apply hcross
          exact List.mem_filterMap.mpr ⟨⟨some row, tt⟩, hx, rfl⟩
        simp only [placesCursorBefore, Bool.not_eq_true']
        simpa using Nat.not_lt.mpr hrow
    · have hx' : x = ⟨some c, TokenType.heading_open lvl⟩ :=
        List.mem_singleton.mp hx
      subst hx'
      simp [placesCursorBefore]
  have htake : (pre ++ ⟨some c, TokenType.heading_open lvl⟩ :: post).takeWhile
        (fun t => !placesCursorBefore c t)
      = pre ++ ⟨some c, TokenType.heading_open lvl⟩ ::
          post.takeWhile (fun t => !placesCursorBefore c t) := by
    have hsplit : pre ++ (⟨some c, TokenType.heading_open lvl⟩ : Token) :: post
        = (pre ++ [⟨some c, TokenType.heading_open lvl⟩]) ++ post := by
      simp
    rw [hsplit, takeWhile_append_all _ _ _ hallpre]
    simp
  refine ⟨htake, ?_⟩
  rw [revealSlideIndex_eq, htake]
  have hsl : (lvl : Int) ≤ resolveSlideLevel
      (pre ++ ⟨some c, TokenType.heading_open lvl⟩ :: post) := by
    rw [← slideLevel_eq c n]
    exact hlvl
  have hcount : countQ (resolveSlideLevel
        (pre ++ ⟨some c, TokenType.heading_open lvl⟩ :: post))
      (emitAll (pre ++ ⟨some c, TokenType.heading_open lvl⟩ ::
        post.takeWhile (fun t => !placesCursorBefore c t)))
      = countQ (resolveSlideLevel
          (pre ++ ⟨some c, TokenType.heading_open lvl⟩ :: post))
        (emitAll pre) + 1
        + countQ (resolveSlideLevel
            (pre ++ ⟨some c, TokenType.heading_open lvl⟩ :: post))
          (emitAll (post.takeWhile (fun t => !placesCursorBefore c t))) := by
    rw [emitAll_append]
    show countQ _ (emitAll pre ++ emitAll
        (⟨some c, TokenType.heading_open lvl⟩ ::
          post.takeWhile (fun t => !placesCursorBefore c t))) = _
    have hemit : emitAll (⟨some c, TokenType.heading_open lvl⟩ ::
          post.takeWhile (fun t => !placesCursorBefore c t))
        = headingItem c lvl ::
            emitAll (post.takeWhile (fun t => !placesCursorBefore c t)) := by
      simp [emitAll, emit, emitItems]
    rw [hemit]
    simp only [countQ, List.countP_append, List.countP_cons]
    have hc : countsAs (resolveSlideLevel
          (pre ++ ⟨some c, TokenType.heading_open lvl⟩ :: post))
        (headingItem c lvl) = true := by
      simp only [countsAs, headingItem]
      exact decide_eq_true hsl
    rw [hc]
    simp
    omega
  rw [hcount]
  have harith : ((countQ (resolveSlideLevel
          (pre ++ ⟨some c, TokenType.heading_open lvl⟩ :: post))
        (emitAll pre) + 1
        + countQ (resolveSlideLevel
            (pre ++ ⟨some c, TokenType.heading_open lvl⟩ :: post))
          (emitAll (post.takeWhile (fun t => !placesCursorBefore c t))) : Nat)
        : Int) - 1
      = (countQ (resolveSlideLevel
            (pre ++ ⟨some c, TokenType.heading_open lvl⟩ :: post))
          (emitAll pre) : Int) + 1
        + (countQ (resolveSlideLevel
            (pre ++ ⟨some c, TokenType.heading_open lvl⟩ :: post))
          (emitAll (post.takeWhile (fun t => !placesCursorBefore c t))) : Int)
        - 1 := by
    push_cast
    ring
  rw [harith]

theorem c7_round_trip_witness :
    List.Pairwise (· ≤ ·) (roundTripTokens.filterMap Token.map) ∧
    (1 : Int) ≤ (revealEditorLocation 5 7 roundTripTokens).slideLevel ∧
    (roundTripTokens.takeWhile (fun t => !placesCursorBefore 5 t)
        = [⟨some 2, TokenType.heading_open 1⟩, ⟨some 3, TokenType.other⟩]
            ++ ⟨some 5, TokenType.heading_open 1⟩ ::
              List.takeWhile (fun t => !placesCursorBefore 5 t) [] ∧
      revealSlideIndex 5 7 roundTripTokens
        = max ((countQ (resolveSlideLevel roundTripTokens)
              (emitAll [⟨some 2, TokenType.heading_open 1⟩,
                ⟨some 3, TokenType.other⟩]) : Int) + 1
            + (countQ (resolveSlideLevel roundTripTokens)
                (emitAll (List.takeWhile
                  (fun t => !placesCursorBefore 5 t) [])) : Int)
            - 1) 0) :=
  ⟨by decide, by decide,
    c7_round_trip 7 roundTripTokens
      [⟨some 2, TokenType.heading_open 1⟩, ⟨some 3, TokenType.other⟩] [] 5 1
      rfl (by decide) (by decide)⟩

/-- C8. For every document containing no heading tokens and no
horizontal-rule tokens (and, as in any document, at most one front-matter
block), the locator returns 0 for every cursor line: the only possible
counting item is the single title, and the counter starts at -1. -/
theorem c8_no_boundaries_zero (c n : Nat) (toks : List Token)
    (hnoh : ∀ t ∈ toks, isHeadingTok t = false)
    (hnohr : ∀ t ∈ toks, isHrTok t = false)
    (hfm : toks.countP isFrontMatterTok ≤ 1) :
    revealSlideIndex c n toks = 0 := by
  rw [revealSlideIndex_eq]
  have hsub : List.Sublist
      (toks.takeWhile (fun t => !placesCursorBefore c t)) toks :=
    List.takeWhile_sublist _
  have h1 : countQ (resolveSlideLevel toks)
      (emitAll (toks.takeWhile (fun t => !placesCursorBefore c t)))
      ≤ (toks.takeWhile (fun t => !placesCursorBefore c t)).countP
          isFrontMatterTok := by
    apply countQ_emitAll_le_fm
    · intro t ht lvl
      exact isHeadingTok_false t (hnoh t (hsub.subset ht)) lvl
    · intro t ht
      exact isHrTok_false t (hnohr t (hsub.subset ht))
  have h2 : (toks.takeWhile (fun t => !placesCursorBefore c t)).countP
        isFrontMatterTok ≤ toks.countP isFrontMatterTok :=
    hsub.countP_le _
  have h3 : countQ (resolveSlideLevel toks)
      (emitAll (toks.takeWhile (fun t => !placesCursorBefore c t))) ≤ 1 := by
    omega
  rcases Nat.le_one_iff_eq_zero_or_eq_one.mp h3 with h | h <;> rw [h] <;> decide

theorem c8_no_boundaries_zero_witness :
    (∀ t ∈ fmOnlyTokens, isHeadingTok t = false) ∧
    (∀ t ∈ fmOnlyTokens, isHrTok t = false) ∧
    fmOnlyTokens.countP isFrontMatterTok ≤ 1 ∧
    revealSlideIndex 5 3 fmOnlyTokens = 0 :=
  ⟨by decide, by decide, by decide,
    c8_no_boundaries_zero 5 3 fmOnlyTokens (by decide) (by decide) (by decide)⟩

/-- C9. For every token stream, cursor line and line count, the item
sequence built by `revealEditorLocation` contains exactly one cursor item,
and the value of `revealSlideIndex` is determined at that cursor item: it
equals the clamped count of counting items strictly before the first
cursor item, so the trailing fallback return of 0 (reached only when the
loop runs off the end of the list) is never the code path taken. -/
theorem c9_unique_cursor (c n : Nat) (toks : List Token) :
    ((revealEditorLocation c n toks).items.countP
        (fun i => decide (i.ttype = ItemType.cursor))) = 1 ∧
    revealSlideIndex c n toks
      = max ((countQ (revealEditorLocation c n toks).slideLevel
            ((revealEditorLocation c n toks).items.takeWhile
              (fun i => !decide (i.ttype = ItemType.cursor))) : Int) - 1) 0 := by
  have hA := emitAll_no_cursor
    (toks.takeWhile (fun t => !placesCursorBefore c t))
  have hB := emitAll_no_cursor
    (toks.dropWhile (fun t => !placesCursorBefore c t))
  constructor
  · rw [items_char]
    rw [List.countP_append, List.countP_cons]
    have h1 : (emitAll (toks.takeWhile
        (fun t => !placesCursorBefore c t))).countP
        (fun i => decide (i.ttype = ItemType.cursor)) = 0 := by
      rw [List.countP_eq_zero]
      intro i hi
      simpa using hA i hi
    have h2 : (emitAll (toks.dropWhile
        (fun t => !placesCursorBefore c t))).countP
        (fun i => decide (i.ttype = ItemType.cursor)) = 0 := by
      rw [List.countP_eq_zero]
      intro i hi
      simpa using hB i hi
    rw [h1, h2]
    simp [cursorItem]
  · have htake : (revealEditorLocation c n toks).items.takeWhile
        (fun i => !decide (i.ttype = ItemType.cursor))
        = emitAll (toks.takeWhile (fun t => !placesCursorBefore c t)) := by
      rw [items_char]
      rw [takeWhile_append_all _ _ _
        (fun i hi => by simpa using hA i hi)]
      have : List.takeWhile (fun i => !decide (i.ttype = ItemType.cursor))
          (cursorItem (if (toks.dropWhile
              (fun t => !placesCursorBefore c t)).isEmpty
            then n - 1 else c) ::
            emitAll (toks.dropWhile (fun t => !placesCursorBefore c t)))
          = [] := by
        simp [List.takeWhile_cons, cursorItem]
      rw [this]
      simp
    rw [htake, slideLevel_eq]
    exact revealSlideIndex_eq c n toks

end QuartoReveal
